import Mathlib

/-!
Verification of the VanBus receiver specification.

The repository ships two copies of `VanBusVersion.h` (release 0.3.2 and
release 0.4.0); those headers are embedded directly below.  The receive
pipeline itself (edge timing, bit recovery, bit de-stuffing, frame
assembly, CRC validation, packet queue, receiver controller) is described
by the design document but its implementation is not part of the
available sources, so it is modelled from the specification text; every
such definition carries a doc comment saying so.
-/

set_option maxRecDepth 4000

/-! ## The version headers (src/VanBusVersion.h and src/src/VanBusVersion.h) -/

/-- Value of a digit string in the given base (most significant digit first). -/
def digitsValue (base : Nat) (ds : List Nat) : Nat :=
  ds.foldl (fun a d => base * a + d) 0

/-- Value of a C integer literal given as its list of digits: a literal
whose first digit is `0` is octal, otherwise it is decimal (C89/C99
integer-constant rules; none of the literals in the headers carry a
`0x` prefix or a suffix). -/
def cIntegerLiteral (ds : List Nat) : Nat :=
  match ds with
  | 0 :: _ :: _ => digitsValue 8 ds
  | _ => digitsValue 10 ds

/-- `#define VAN_BUS_VERSION "0.3.2"` in src/VanBusVersion.h. -/
def VAN_BUS_VERSION_v032 : String := "0.3.2"
/-- `#define VAN_BUS_VERSION_MAJOR 0` in src/VanBusVersion.h. -/
def VAN_BUS_VERSION_MAJOR_v032 : Nat := 0
/-- `#define VAN_BUS_VERSION_MINOR 3` in src/VanBusVersion.h. -/
def VAN_BUS_VERSION_MINOR_v032 : Nat := 3
/-- `#define VAN_BUS_VERSION_PATCH 2` in src/VanBusVersion.h. -/
def VAN_BUS_VERSION_PATCH_v032 : Nat := 2
/-- `#define VAN_BUS_VERSION_INT 000003002` in src/VanBusVersion.h,
evaluated as the C integer literal with digits 0,0,0,0,0,3,0,0,2. -/
def VAN_BUS_VERSION_INT_v032 : Nat := cIntegerLiteral [0, 0, 0, 0, 0, 3, 0, 0, 2]
/-- `#define VAN_BUS_RX_VERSION VAN_BUS_VERSION_INT` in src/VanBusVersion.h. -/
def VAN_BUS_RX_VERSION_v032 : Nat := VAN_BUS_VERSION_INT_v032

/-- `#define VAN_BUS_VERSION "0.4.0"` in src/src/VanBusVersion.h. -/
def VAN_BUS_VERSION_v040 : String := "0.4.0"
/-- `#define VAN_BUS_VERSION_MAJOR 0` in src/src/VanBusVersion.h. -/
def VAN_BUS_VERSION_MAJOR_v040 : Nat := 0
/-- `#define VAN_BUS_VERSION_MINOR 4` in src/src/VanBusVersion.h. -/
def VAN_BUS_VERSION_MINOR_v040 : Nat := 4
/-- `#define VAN_BUS_VERSION_PATCH 0` in src/src/VanBusVersion.h. -/
def VAN_BUS_VERSION_PATCH_v040 : Nat := 0
/-- `#define VAN_BUS_VERSION_INT 000004000` in src/src/VanBusVersion.h,
evaluated as the C integer literal with digits 0,0,0,0,0,4,0,0,0. -/
def VAN_BUS_VERSION_INT_v040 : Nat := cIntegerLiteral [0, 0, 0, 0, 0, 4, 0, 0, 0]
/-- `#define VAN_BUS_RX_VERSION VAN_BUS_VERSION_INT` in src/src/VanBusVersion.h. -/
def VAN_BUS_RX_VERSION_v040 : Nat := VAN_BUS_VERSION_INT_v040

/-- Decimal digits of three version components joined by dots. -/
def dottedVersion (maj min pat : Nat) : String :=
  Nat.repr maj ++ "." ++ Nat.repr min ++ "." ++ Nat.repr pat

/-! ## Bits and bytes -/

/-- The eight bits of a byte, most significant bit first.
Modelled from the spec: frame assembly converts between bytes and a bit
stream with a fixed bit order. -/
def bitsOfByte (v : Nat) : List Bool :=
  (List.range 8).map (fun i => v.testBit (7 - i))

/-- Reassemble a byte from bits, most significant bit first.
Modelled from the spec: the Frame Assembler accumulates 8 de-stuffed bits
into one byte. -/
def byteVal (bs : List Bool) : Nat :=
  bs.foldl (fun a b => 2 * a + (if b then 1 else 0)) 0

/-- Bit stream of a byte list, most significant bit of each byte first. -/
def bytesBits : List Nat → List Bool
  | [] => []
  | v :: r => bitsOfByte v ++ bytesBits r

/-! ## Protocol constants

Modelled from the spec: the exact stuffing run length, CRC polynomial and
initial value, and the marker bit patterns are protocol constants that the
design requires to be named configurable constants rather than magic
numbers; the values fixed here are one consistent instantiation. -/

/-- Run-length rule K of the bit stuffing: after every run of K identical
bits the transmitter inserts one complementary stuffing bit.  K = 2 is
forced by the Bit Recoverer, which only accepts intervals of one or two
nominal bit periods, so runs of identical wire bits never exceed two. -/
def stuffRunLength : Nat := 2

/-- Start-of-frame marker bit pattern (one byte, transmitted MSB first). -/
def sofPattern : List Bool :=
  [false, false, false, false, true, true, true, false]

/-- End-of-frame marker byte. -/
def eofByte : Nat := 0x5A

/-- Generator polynomial of the CRC-15, low 15 bits. -/
def crcPoly : Nat := 0x4599

/-- Initial value of the CRC-15 register. -/
def crcInit : Nat := 0x7FFF

/-- One CRC-15 shift step: shift the register left and apply the
polynomial when the shifted-out bit differs from the input bit.
Modelled from the spec: the CRC Validator computes a CRC-15 variant with
a fixed polynomial and initial value. -/
def crc15Step (a : Nat) (b : Bool) : Nat :=
  if xor (a.testBit 14) b then ((2 * a) ^^^ crcPoly) % 32768 else (2 * a) % 32768

/-- CRC-15 of a byte list (each byte fed MSB first). -/
def crc15Bytes (l : List Nat) : Nat :=
  l.foldl (fun a v => (bitsOfByte v).foldl crc15Step a) crcInit

/-! ## Configuration and data model

Modelled from the spec: the receiver implementation (Edge Timer, Bit
Recoverer, Bit De-stuffer, Frame Assembler, CRC Validator, Packet Queue,
Receiver Controller) is not among the available sources; the definitions
below follow the design document's component contracts. -/

/-- Recognized configuration options.  The timing tolerance is a fraction
`toleranceNum / toleranceDen` of the nominal bit period; the bus-idle
threshold is the configured interval beyond which the line is considered
idle (an inter-frame gap). -/
structure VanConfig where
  nominalBitPeriod : Nat
  toleranceNum : Nat
  toleranceDen : Nat
  busIdleThreshold : Nat
  queueCapacity : Nat
  surfaceInvalidPackets : Bool
  maxPacketSize : Nat
deriving Repr, DecidableEq

/-- Absolute timing tolerance: the configured fraction of the nominal bit
period. -/
def tolAbs (c : VanConfig) : Nat :=
  c.nominalBitPeriod * c.toleranceNum / c.toleranceDen

/-- The unit handed downstream: identifier, flags/type field, data
payload, received CRC value, validity flag, and a sequence number for
consumer-side diagnostics.  Modelled from the spec (Packet data model). -/
structure Packet where
  identifier : Nat
  flags : Nat
  data : List Nat
  crc : Nat
  validity : Bool
  seq : Nat
deriving Repr, DecidableEq

/-- Process-wide statistics counters.  Modelled from the spec (Statistics
data model and the error kinds of the error-handling design). -/
structure Stats where
  framesCompleted : Nat
  bitTimingViolations : Nat
  stuffingViolations : Nat
  frameTooLong : Nat
  markerMismatch : Nat
  crcMismatch : Nat
  queueOverflow : Nat
deriving Repr, DecidableEq

/-- All statistics counters at zero. -/
def zeroStats : Stats := ⟨0, 0, 0, 0, 0, 0, 0⟩

def incFramesCompleted (s : Stats) : Stats :=
  { s with framesCompleted := s.framesCompleted + 1 }
def incBitTimingViolation (s : Stats) : Stats :=
  { s with bitTimingViolations := s.bitTimingViolations + 1 }
def incStuffingViolation (s : Stats) : Stats :=
  { s with stuffingViolations := s.stuffingViolations + 1 }
def incFrameTooLong (s : Stats) : Stats :=
  { s with frameTooLong := s.frameTooLong + 1 }
def incMarkerMismatch (s : Stats) : Stats :=
  { s with markerMismatch := s.markerMismatch + 1 }
def incCrcMismatch (s : Stats) : Stats :=
  { s with crcMismatch := s.crcMismatch + 1 }
def incQueueOverflow (s : Stats) : Stats :=
  { s with queueOverflow := s.queueOverflow + 1 }

/-- Frame Assembler state: either scanning for the start-of-frame marker
(IDLE, with the window of bits seen so far) or inside a frame with the
Raw Frame Buffer of completed bytes and the bits of the byte in
progress.  Modelled from the spec (Frame Assembler state machine). -/
inductive AsmState where
  | idle (window : List Bool)
  | inFrame (buf : List Nat) (bitbuf : List Bool)
deriving Repr, DecidableEq

/-- Producer-side frame context: assembler state, packet queue contents,
statistics, and the running packet sequence number. -/
structure FrameCtx where
  asm : AsmState
  queue : List Packet
  stats : Stats
  seqCounter : Nat
deriving Repr, DecidableEq

/-- Full producer-side decode state: the Bit De-stuffer's run tracking
(last wire bit and current run length) together with the frame context. -/
structure CoreState where
  dLast : Option Bool
  dRun : Nat
  fc : FrameCtx
deriving Repr, DecidableEq

/-- Receiver state: started flag, the Edge Timer's previous edge time,
the line level since that edge, and the decode state. -/
structure RxState where
  running : Bool
  prevTime : Option Nat
  prevLevel : Bool
  core : CoreState
deriving Repr, DecidableEq

/-- An observed transition: monotonic timestamp and the new line level. -/
structure EdgeEvent where
  t : Nat
  level : Bool
deriving Repr, DecidableEq

/-! ## Packet Queue

Modelled from the spec: a bounded buffer; enqueue from the producer is
non-blocking and, when the queue is full, drops the incoming packet and
increments the overflow counter. -/

/-- Non-blocking bounded enqueue: append when below capacity, otherwise
drop the packet and count one overflow. -/
def enqueuePacket (c : VanConfig) (fc : FrameCtx) (p : Packet) : FrameCtx :=
  if fc.queue.length < c.queueCapacity then { fc with queue := fc.queue ++ [p] }
  else { fc with stats := incQueueOverflow fc.stats }

/-! ## Frame Assembler and CRC Validator

Modelled from the spec: de-stuffed bits are accumulated 8 at a time into
bytes; the byte sequence after the start-of-frame marker is
identifier/flags (two bytes: 12-bit identifier, 4-bit flags), one length
byte, the data bytes, the 15-bit CRC in two bytes, and the end-of-frame
marker byte.  Any violation abandons the frame and returns to IDLE. -/

/-- Build the Packet surfaced downstream from a completed Raw Frame
Buffer. -/
def mkPacket (k : Nat) (buf : List Nat) (len : Nat) (ok : Bool) : Packet :=
  { identifier := buf.getD 0 0 * 16 + buf.getD 1 0 / 16
  , flags := buf.getD 1 0 % 16
  , data := (buf.drop 3).take len
  , crc := buf.getD (3 + len) 0 * 256 + buf.getD (4 + len) 0
  , validity := ok
  , seq := k }

/-- Validate and hand off a completed frame: check the end-of-frame
marker, recompute the CRC-15 over the identifier/flags bytes and the data
bytes, compare it with the transmitted CRC, and enqueue the packet (CRC
failures are enqueued with validity false only when
`surface_invalid_packets` is enabled, otherwise only counted). -/
def finalizeFrame (c : VanConfig) (q : List Packet) (st : Stats) (k : Nat)
    (buf : List Nat) : FrameCtx :=
  let len := buf.getD 2 0
  let dataF := (buf.drop 3).take len
  let rx := buf.getD (3 + len) 0 * 256 + buf.getD (4 + len) 0
  if buf.getD (5 + len) 0 ≠ eofByte then
    ⟨.idle [], q, incMarkerMismatch st, k⟩
  else if crc15Bytes (buf.take 2 ++ dataF) = rx then
    enqueuePacket c ⟨.idle [], q, incFramesCompleted st, k + 1⟩
      (mkPacket k buf len true)
  else if c.surfaceInvalidPackets then
    enqueuePacket c ⟨.idle [], q, incCrcMismatch st, k + 1⟩
      (mkPacket k buf len false)
  else ⟨.idle [], q, incCrcMismatch st, k⟩

/-- Process one completed byte inside a frame: growing the Raw Frame
Buffer past `max_packet_size` abandons the frame with a FrameTooLong
error; otherwise the byte is appended and, once the length-determined
frame is complete, the frame is finalized. -/
def asmByteStep (c : VanConfig) (q : List Packet) (st : Stats) (k : Nat)
    (buf : List Nat) (v : Nat) : FrameCtx :=
  if c.maxPacketSize < buf.length + 1 then
    ⟨.idle [], q, incFrameTooLong st, k⟩
  else
    let buf' := buf ++ [v]
    if buf'.length < 3 then ⟨.inFrame buf' [], q, st, k⟩
    else if buf'.length < 6 + buf'.getD 2 0 then ⟨.inFrame buf' [], q, st, k⟩
    else finalizeFrame c q st k buf'

/-- Process one de-stuffed payload bit: in IDLE, slide the marker window
and enter a frame exactly when it matches the start-of-frame pattern
(a non-matching window is not an error, scanning just continues); inside
a frame, accumulate bits into the byte in progress. -/
def asmBitStep (c : VanConfig) (fc : FrameCtx) (b : Bool) : FrameCtx :=
  match fc.asm with
  | .idle w =>
      let w' := (if w.length < 8 then w else w.drop 1) ++ [b]
      if w' = sofPattern then ⟨.inFrame [] [], fc.queue, fc.stats, fc.seqCounter⟩
      else ⟨.idle w', fc.queue, fc.stats, fc.seqCounter⟩
  | .inFrame buf bb =>
      let bb' := bb ++ [b]
      if bb'.length < 8 then ⟨.inFrame buf bb', fc.queue, fc.stats, fc.seqCounter⟩
      else asmByteStep c fc.queue fc.stats fc.seqCounter buf (byteVal bb')

/-! ## Bit De-stuffer

Modelled from the spec: track the run length of identical wire bits;
after a run of K identical bits the next wire bit must be the
complementary stuffing bit and is removed; a run of K+1 identical bits is
a stuffing violation that abandons the current frame. -/

/-- Process one recovered wire bit through the de-stuffer and, for
payload bits, the frame assembler. -/
def coreBitStep (c : VanConfig) (s : CoreState) (b : Bool) : CoreState :=
  if s.dRun = stuffRunLength then
    if s.dLast = some b then
      ⟨some b, 1,
        ⟨.idle [], s.fc.queue, incStuffingViolation s.fc.stats, s.fc.seqCounter⟩⟩
    else ⟨some b, 1, s.fc⟩
  else
    let r := if s.dLast = some b then s.dRun + 1 else 1
    ⟨some b, r, asmBitStep c s.fc b⟩

/-! ## Edge Timer and Bit Recoverer

Modelled from the spec: the interval between consecutive edges is
classified as a bus-idle gap (frame boundary), one bit, two bits of the
same polarity, or a timing violation aborting the current frame. -/

/-- Interval classification of the Bit Recoverer. -/
inductive BitClass where
  | idleGap
  | oneBit
  | twoBits
  | violation
deriving Repr, DecidableEq

/-- Classify an edge-to-edge interval against the nominal bit period and
the configured tolerance. -/
def classifyInterval (c : VanConfig) (i : Nat) : BitClass :=
  if c.busIdleThreshold < i then .idleGap
  else if i ≤ c.nominalBitPeriod + tolAbs c ∧ c.nominalBitPeriod ≤ i + tolAbs c then
    .oneBit
  else if i ≤ 2 * c.nominalBitPeriod + tolAbs c ∧ 2 * c.nominalBitPeriod ≤ i + tolAbs c then
    .twoBits
  else .violation

/-- Process one edge event: a stopped receiver ignores it; the first edge
only records time and level; otherwise the interval is classified and
yields a frame-boundary reset, one or two bits at the previous line
level, or a bit-timing violation that abandons the current frame. -/
def edgeStep (c : VanConfig) (s : RxState) (e : EdgeEvent) : RxState :=
  if s.running = false then s
  else
    match s.prevTime with
    | none => ⟨true, some e.t, e.level, s.core⟩
    | some t0 =>
        match classifyInterval c (e.t - t0) with
        | .idleGap =>
            ⟨true, some e.t, e.level,
              ⟨none, 0, ⟨.idle [], s.core.fc.queue, s.core.fc.stats, s.core.fc.seqCounter⟩⟩⟩
        | .oneBit =>
            ⟨true, some e.t, e.level, coreBitStep c s.core s.prevLevel⟩
        | .twoBits =>
            ⟨true, some e.t, e.level,
              coreBitStep c (coreBitStep c s.core s.prevLevel) s.prevLevel⟩
        | .violation =>
            ⟨true, some e.t, e.level,
              ⟨none, 0,
                ⟨.idle [], s.core.fc.queue,
                  incBitTimingViolation s.core.fc.stats, s.core.fc.seqCounter⟩⟩⟩

/-- Run the receiver over a sequence of edge events. -/
def runEdges (c : VanConfig) (s : RxState) (es : List EdgeEvent) : RxState :=
  es.foldl (edgeStep c) s

/-! ## Receiver Controller

Modelled from the spec: `start()` begins listening, resets the state
machine to IDLE and clears statistics ( a no-op reporting an already
running status when already started); `stop()` ceases processing and
abandons any in-flight frame; plus the consumer-side queue interface. -/

inductive StartStatus where
  | started
  | alreadyRunning
deriving Repr, DecidableEq

/-- The receiver before `start()`: stopped, with empty buffers, an empty
queue and zeroed statistics. -/
def initialRx : RxState :=
  ⟨false, none, false, ⟨none, 0, ⟨.idle [], [], zeroStats, 0⟩⟩⟩

/-- `start()`: when already running, a no-op reporting `alreadyRunning`;
otherwise begin listening with the state machine in IDLE and statistics
cleared (already-delivered packets stay in the queue for the consumer). -/
def startRx (s : RxState) : RxState × StartStatus :=
  if s.running then (s, .alreadyRunning)
  else (⟨true, none, false, ⟨none, 0, ⟨.idle [], s.core.fc.queue, zeroStats, 0⟩⟩⟩,
    .started)

/-- `stop()`: cease processing further edges; any in-flight frame is
abandoned. -/
def stopRx (s : RxState) : RxState :=
  ⟨false, none, s.prevLevel,
    ⟨none, 0, ⟨.idle [], s.core.fc.queue, s.core.fc.stats, s.core.fc.seqCounter⟩⟩⟩

/-- `reset_statistics()`. -/
def resetStatisticsRx (s : RxState) : RxState :=
  ⟨s.running, s.prevTime, s.prevLevel,
    ⟨s.core.dLast, s.core.dRun,
      ⟨s.core.fc.asm, s.core.fc.queue, zeroStats, s.core.fc.seqCounter⟩⟩⟩

/-- `get_statistics()`: a snapshot copy. -/
def getStatisticsRx (s : RxState) : Stats := s.core.fc.stats

/-- `available()`: number of packets waiting for the consumer. -/
def availableRx (s : RxState) : Nat := s.core.fc.queue.length

/-- `dequeue()`: remove and return the oldest packet, or report empty. -/
def dequeueRx (s : RxState) : Option Packet × RxState :=
  match s.core.fc.queue with
  | [] => (none, s)
  | p :: rest =>
      (some p,
        ⟨s.running, s.prevTime, s.prevLevel,
          ⟨s.core.dLast, s.core.dRun,
            ⟨s.core.fc.asm, rest, s.core.fc.stats, s.core.fc.seqCounter⟩⟩⟩)

/-! ## Synthetic input encoder

Modelled from the spec's testable properties: a synthetic bitstream for a
well-formed packet carries the start-of-frame marker, identifier, flags,
length-determined data, CRC-15 and end-of-frame marker, is bit-stuffed
with run-length rule K, and is fed as edges at exactly nominal-bit-period
spacing. -/

/-- The two header bytes: 12-bit identifier and 4-bit flags. -/
def headerBytes (id flags : Nat) : List Nat :=
  [id / 16, id % 16 * 16 + flags]

/-- The bytes the CRC-15 covers: identifier/flags bytes and data bytes. -/
def fieldBytes (id flags : Nat) (data : List Nat) : List Nat :=
  headerBytes id flags ++ data

/-- The CRC value of a well-formed frame. -/
def goodCrc (id flags : Nat) (data : List Nat) : Nat :=
  crc15Bytes (fieldBytes id flags data)

/-- Nat layout of a frame after the start-of-frame marker: header bytes,
length byte, data bytes, CRC-15 in two bytes, end-of-frame marker. -/
def frameBytes (id flags : Nat) (data : List Nat) (crcv : Nat) : List Nat :=
  headerBytes id flags ++ [data.length] ++ data ++ [crcv / 256, crcv % 256, eofByte]

/-- De-stuffed payload bit stream of one frame. -/
def framePayloadBits (id flags : Nat) (data : List Nat) (crcv : Nat) : List Bool :=
  sofPattern ++ bytesBits (frameBytes id flags data crcv)

/-- Transmitter-side bit stuffing: emit each payload bit, and after every
run of K identical wire bits insert one complementary stuffing bit.  The
`last`/`run` arguments track the trailing run of emitted wire bits. -/
def stuffBits (last : Option Bool) (run : Nat) : List Bool → List Bool
  | [] => []
  | b :: rest =>
      let r := if last = some b then run + 1 else 1
      if r = stuffRunLength then b :: (!b) :: stuffBits (some (!b)) 1 rest
      else b :: stuffBits (some b) r rest

/-- Final run-tracking state of `stuffBits`. -/
def stuffFinal (last : Option Bool) (run : Nat) : List Bool → Option Bool × Nat
  | [] => (last, run)
  | b :: rest =>
      let r := if last = some b then run + 1 else 1
      if r = stuffRunLength then stuffFinal (some (!b)) 1 rest
      else stuffFinal (some b) r rest

/-- Stuffed wire bits of one frame. -/
def wireOf (id flags : Nat) (data : List Nat) (crcv : Nat) : List Bool :=
  stuffBits none 0 (framePayloadBits id flags data crcv)

/-- Edges at exactly nominal-bit-period spacing: the edge at `t + p`
carries the level of the following bit period, so processing it consumes
the current `prevLevel` as one bit. -/
def carryEdges (p : Nat) : Nat → List Bool → List EdgeEvent
  | _, [] => []
  | t, b :: rest => ⟨t + p, b⟩ :: carryEdges p (t + p) rest

/-- Edge events transmitting the wire bits `ws` with the first edge at
time `t1`: the first edge raises the line to the first wire bit's level,
each later edge comes one nominal bit period after the previous one, and
one closing edge ends the last bit period. -/
def frameEdges (p t1 : Nat) (ws : List Bool) : List EdgeEvent :=
  match ws with
  | [] => []
  | w :: wr => ⟨t1, w⟩ :: carryEdges p t1 (wr ++ [false])

/-- Full synthetic edge stream of one frame, first edge at `t1`. -/
def encodeFrameEdges (c : VanConfig) (t1 : Nat) (id flags : Nat)
    (data : List Nat) (crcv : Nat) : List EdgeEvent :=
  frameEdges c.nominalBitPeriod t1 (wireOf id flags data crcv)


/-! ## Consumer-side operation model and auxiliary measures -/

/-- A consumer/producer operation on the Packet Queue. -/
inductive QueueOp where
  | enq (p : Packet)
  | deq
deriving Repr, DecidableEq

/-- One queue operation on the frame context: a producer enqueue or a
consumer dequeue (dropping the oldest packet). -/
def queueOpStep (c : VanConfig) (fc : FrameCtx) : QueueOp → FrameCtx
  | .enq p => enqueuePacket c fc p
  | .deq => { fc with queue := fc.queue.tail }

/-- Number of bytes currently held in the Raw Frame Buffer. -/
def frameBufLen : AsmState → Nat
  | .idle _ => 0
  | .inFrame buf _ => buf.length

/-- A freshly started receiver whose queue already holds the packets
`q` completed before a restart. -/
def freshWithQueue (q : List Packet) : RxState :=
  ⟨true, none, false, ⟨none, 0, ⟨.idle [], q, zeroStats, 0⟩⟩⟩

/-! ## Basic lemmas -/

theorem byteVal_bitsOfByte (v : Nat) (hv : v < 256) : byteVal (bitsOfByte v) = v := by
  interval_cases v <;> decide

theorem crc15Step_lt (a : Nat) (b : Bool) : crc15Step a b < 32768 := by
  unfold crc15Step
  split <;> exact Nat.mod_lt _ (by norm_num)

theorem crc15_foldl_lt (bs : List Bool) (a : Nat) (ha : a < 32768) :
    bs.foldl crc15Step a < 32768 := by
  induction bs generalizing a with
  | nil => exact ha
  | cons b r ih => exact ih _ (crc15Step_lt a b)

theorem crc15Bytes_lt (l : List Nat) : crc15Bytes l < 32768 := by
  have h : ∀ (m : List Nat) (a : Nat), a < 32768 →
      m.foldl (fun a v => (bitsOfByte v).foldl crc15Step a) a < 32768 := by
    intro m
    induction m with
    | nil => intro a ha; exact ha
    | cons v r ih => intro a ha; exact ih _ (crc15_foldl_lt _ _ ha)
  exact h l crcInit (by norm_num [crcInit])

theorem getD_append_ge (pre l2 : List Nat) (j : Nat) (d : Nat)
    (h : pre.length ≤ j) : (pre ++ l2).getD j d = l2.getD (j - pre.length) d := by
  induction pre generalizing j with
  | nil => simp
  | cons a t ih =>
    cases j with
    | zero => simp at h
    | succ j' =>
        simp only [List.cons_append, List.getD_cons_succ, List.length_cons] at *
        rw [ih j' (by omega)]
        congr 1
        omega

theorem bytesBits_cons (v : Nat) (r : List Nat) :
    bytesBits (v :: r) = bitsOfByte v ++ bytesBits r := rfl

theorem bytesBits_append (l1 l2 : List Nat) :
    bytesBits (l1 ++ l2) = bytesBits l1 ++ bytesBits l2 := by
  induction l1 with
  | nil => rfl
  | cons v r ih => simp [bytesBits_cons, ih, List.append_assoc]

/-! ## Frame Assembler step lemmas -/

theorem asmByteStep_tooLong (c : VanConfig) (q : List Packet) (st : Stats) (k : Nat)
    (buf : List Nat) (v : Nat) (h : c.maxPacketSize < buf.length + 1) :
    asmByteStep c q st k buf v = ⟨.idle [], q, incFrameTooLong st, k⟩ := by
  unfold asmByteStep
  rw [if_pos h]

theorem asmByteStep_continue (c : VanConfig) (q : List Packet) (st : Stats) (k : Nat)
    (buf : List Nat) (v : Nat)
    (h1 : buf.length + 1 ≤ c.maxPacketSize)
    (h2 : (buf ++ [v]).length < 3 ∨ (buf ++ [v]).length < 6 + (buf ++ [v]).getD 2 0) :
    asmByteStep c q st k buf v = ⟨.inFrame (buf ++ [v]) [], q, st, k⟩ := by
  unfold asmByteStep
  rw [if_neg (by omega)]
  rcases h2 with h2 | h2
  · simp only [if_pos h2]
  · by_cases h3 : (buf ++ [v]).length < 3
    · simp only [if_pos h3]
    · simp only [if_neg h3, if_pos h2]

theorem asmByteStep_finalize (c : VanConfig) (q : List Packet) (st : Stats) (k : Nat)
    (buf : List Nat) (v : Nat)
    (h1 : buf.length + 1 ≤ c.maxPacketSize)
    (h2 : ¬ (buf ++ [v]).length < 3)
    (h3 : ¬ (buf ++ [v]).length < 6 + (buf ++ [v]).getD 2 0) :
    asmByteStep c q st k buf v = finalizeFrame c q st k (buf ++ [v]) := by
  unfold asmByteStep
  rw [if_neg (by omega)]
  simp only [if_neg h2, if_neg h3]

theorem finalize_shape (c : VanConfig) (q : List Packet) (st : Stats) (k : Nat)
    (b1 b2 lenB cHi cLo eB : Nat) (data : List Nat) (hl : data.length = lenB) :
    finalizeFrame c q st k ([b1, b2, lenB] ++ (data ++ [cHi, cLo, eB])) =
      if eB ≠ eofByte then ⟨.idle [], q, incMarkerMismatch st, k⟩
      else if crc15Bytes ([b1, b2] ++ data) = cHi * 256 + cLo then
        enqueuePacket c ⟨.idle [], q, incFramesCompleted st, k + 1⟩
          ⟨b1 * 16 + b2 / 16, b2 % 16, data, cHi * 256 + cLo, true, k⟩
      else if c.surfaceInvalidPackets = true then
        enqueuePacket c ⟨.idle [], q, incCrcMismatch st, k + 1⟩
          ⟨b1 * 16 + b2 / 16, b2 % 16, data, cHi * 256 + cLo, false, k⟩
      else ⟨.idle [], q, incCrcMismatch st, k⟩ := by
  have e2 : ([b1, b2, lenB] ++ (data ++ [cHi, cLo, eB])).getD 2 0 = lenB := rfl
  have e0 : ([b1, b2, lenB] ++ (data ++ [cHi, cLo, eB])).getD 0 0 = b1 := rfl
  have e1 : ([b1, b2, lenB] ++ (data ++ [cHi, cLo, eB])).getD 1 0 = b2 := rfl
  have et2 : ([b1, b2, lenB] ++ (data ++ [cHi, cLo, eB])).take 2 = [b1, b2] := rfl
  have edrop : ([b1, b2, lenB] ++ (data ++ [cHi, cLo, eB])).drop 3 = data ++ [cHi, cLo, eB] := rfl
  have etake : (data ++ [cHi, cLo, eB]).take lenB = data := List.take_left' hl
  have hplen : ([b1, b2, lenB] ++ data).length = 3 + lenB := by
    rw [List.length_append, hl]
    rfl
  have eHi : ([b1, b2, lenB] ++ (data ++ [cHi, cLo, eB])).getD (3 + lenB) 0 = cHi := by
    rw [← List.append_assoc, getD_append_ge _ _ _ _ (le_of_eq hplen), hplen, Nat.sub_self]
    rfl
  have hle4 : ([b1, b2, lenB] ++ data).length ≤ 4 + lenB := by
    rw [hplen]
    omega
  have hle5 : ([b1, b2, lenB] ++ data).length ≤ 5 + lenB := by
    rw [hplen]
    omega
  have eLo : ([b1, b2, lenB] ++ (data ++ [cHi, cLo, eB])).getD (4 + lenB) 0 = cLo := by
    rw [← List.append_assoc, getD_append_ge _ _ _ _ hle4, hplen]
    have h4 : 4 + lenB - (3 + lenB) = 1 := by omega
    rw [h4]
    rfl
  have eE : ([b1, b2, lenB] ++ (data ++ [cHi, cLo, eB])).getD (5 + lenB) 0 = eB := by
    rw [← List.append_assoc, getD_append_ge _ _ _ _ hle5, hplen]
    have h5 : 5 + lenB - (3 + lenB) = 2 := by omega
    rw [h5]
    rfl
  simp only [finalizeFrame, mkPacket, e2, e0, e1, et2, edrop, etake, eHi, eLo, eE]

theorem asm_feed_sof (c : VanConfig) (q : List Packet) (st : Stats) (k : Nat)
    (rest : List Bool) :
    List.foldl (asmBitStep c) ⟨.idle [], q, st, k⟩ (sofPattern ++ rest)
    = List.foldl (asmBitStep c) ⟨.inFrame [] [], q, st, k⟩ rest := rfl

theorem asm_feed_byte (c : VanConfig) (q : List Packet) (st : Stats) (k : Nat)
    (buf : List Nat) (v : Nat) (rest : List Bool) (hv : v < 256) :
    List.foldl (asmBitStep c) ⟨.inFrame buf [], q, st, k⟩ (bitsOfByte v ++ rest)
    = List.foldl (asmBitStep c) (asmByteStep c q st k buf v) rest := by
  have h : List.foldl (asmBitStep c) ⟨.inFrame buf [], q, st, k⟩ (bitsOfByte v ++ rest)
      = List.foldl (asmBitStep c) (asmByteStep c q st k buf (byteVal (bitsOfByte v))) rest := rfl
  rw [h, byteVal_bitsOfByte v hv]

theorem asm_feed_tailbyte (c : VanConfig) (q : List Packet) (st : Stats) (k : Nat)
    (b1 b2 lenB : Nat) (mid buf : List Nat) (v : Nat) (rest : List Bool)
    (hbuf : buf = [b1, b2, lenB] ++ mid) (hv : v < 256)
    (hmaxlen : 3 + mid.length + 1 ≤ c.maxPacketSize)
    (hlt : 3 + mid.length + 1 < 6 + lenB) :
    List.foldl (asmBitStep c) ⟨.inFrame buf [], q, st, k⟩ (bitsOfByte v ++ rest)
    = List.foldl (asmBitStep c) ⟨.inFrame ([b1, b2, lenB] ++ (mid ++ [v])) [], q, st, k⟩ rest := by
  subst hbuf
  rw [asm_feed_byte c q st k _ v rest hv]
  have hL : ([b1, b2, lenB] ++ mid).length = 3 + mid.length := by
    rw [List.length_append]
    rfl
  have e2 : (([b1, b2, lenB] ++ mid) ++ [v]).getD 2 0 = lenB := by
    rw [List.append_assoc]
    rfl
  have hlen2 : (([b1, b2, lenB] ++ mid) ++ [v]).length
      < 6 + (([b1, b2, lenB] ++ mid) ++ [v]).getD 2 0 := by
    rw [e2, List.length_append, hL]
    simp only [List.length_cons, List.length_nil]
    omega
  have h1 : ([b1, b2, lenB] ++ mid).length + 1 ≤ c.maxPacketSize := by
    rw [hL]
    omega
  rw [asmByteStep_continue c q st k _ v h1 (Or.inr hlen2)]
  rw [List.append_assoc]

theorem asm_feed_data (c : VanConfig) (q : List Packet) (st : Stats) (k : Nat)
    (b1 b2 lenB : Nat) :
    ∀ (ds pre buf : List Nat) (rest : List Bool),
    buf = [b1, b2, lenB] ++ pre →
    (∀ x ∈ ds, x < 256) →
    pre.length + ds.length ≤ lenB →
    6 + lenB ≤ c.maxPacketSize →
    List.foldl (asmBitStep c) ⟨.inFrame buf [], q, st, k⟩ (bytesBits ds ++ rest)
    = List.foldl (asmBitStep c) ⟨.inFrame ([b1, b2, lenB] ++ (pre ++ ds)) [], q, st, k⟩ rest := by
  intro ds
  induction ds with
  | nil =>
      intro pre buf rest hbuf hv hfit hmax
      subst hbuf
      simp [bytesBits]
  | cons d ds ih =>
      intro pre buf rest hbuf hv hfit hmax
      subst hbuf
      rw [bytesBits_cons, List.append_assoc]
      simp only [List.length_cons] at hfit
      rw [asm_feed_tailbyte c q st k b1 b2 lenB pre _ d _ rfl
        (hv d (List.mem_cons_self d ds)) (by omega) (by omega)]
      rw [ih (pre ++ [d]) _ rest rfl (fun x hx => hv x (List.mem_cons_of_mem d hx))
        (by simp only [List.length_append, List.length_cons, List.length_nil]; omega) hmax]
      rw [List.append_assoc]
      rfl

theorem frame_payload_run (c : VanConfig) (q : List Packet) (st : Stats) (k : Nat)
    (id flags : Nat) (data : List Nat) (crcv : Nat) (rest : List Bool)
    (hid : id < 4096) (hfl : flags < 16)
    (hv : ∀ x ∈ data, x < 256) (hdl : data.length < 256) (hcrc : crcv < 32768)
    (hmax : 6 + data.length ≤ c.maxPacketSize) :
    List.foldl (asmBitStep c) ⟨.idle [], q, st, k⟩ (framePayloadBits id flags data crcv ++ rest)
    = List.foldl (asmBitStep c)
        (finalizeFrame c q st k
          ([id / 16, id % 16 * 16 + flags, data.length]
            ++ (data ++ [crcv / 256, crcv % 256, eofByte]))) rest := by
  simp only [framePayloadBits]
  rw [List.append_assoc, asm_feed_sof]
  have ef : frameBytes id flags data crcv
      = id / 16 :: (id % 16 * 16 + flags) :: data.length
        :: (data ++ [crcv / 256, crcv % 256, eofByte]) := rfl
  rw [ef]
  rw [bytesBits_cons, List.append_assoc]
  rw [asm_feed_byte c q st k [] (id / 16) _ (by omega)]
  rw [asmByteStep_continue c q st k [] (id / 16)
    (by simp only [List.length_nil]; omega) (Or.inl (by simp))]
  rw [show ([] : List Nat) ++ [id / 16] = [id / 16] from rfl]
  rw [bytesBits_cons, List.append_assoc]
  rw [asm_feed_byte c q st k [id / 16] (id % 16 * 16 + flags) _ (by omega)]
  rw [asmByteStep_continue c q st k [id / 16] (id % 16 * 16 + flags)
    (by simp only [List.length_cons, List.length_nil]; omega) (Or.inl (by simp))]
  rw [show [id / 16] ++ [id % 16 * 16 + flags] = [id / 16, id % 16 * 16 + flags] from rfl]
  rw [bytesBits_cons, List.append_assoc]
  rw [asm_feed_byte c q st k [id / 16, id % 16 * 16 + flags] data.length _ hdl]
  rw [asmByteStep_continue c q st k [id / 16, id % 16 * 16 + flags] data.length
    (by simp only [List.length_cons, List.length_nil]; omega)
    (Or.inr (by
      rw [show (([id / 16, id % 16 * 16 + flags] : List Nat) ++ [data.length]).getD 2 0
        = data.length from rfl]
      simp only [List.length_append, List.length_cons, List.length_nil]
      omega))]
  rw [show [id / 16, id % 16 * 16 + flags] ++ [data.length]
    = [id / 16, id % 16 * 16 + flags, data.length] from rfl]
  rw [bytesBits_append, List.append_assoc]
  rw [asm_feed_data c q st k (id / 16) (id % 16 * 16 + flags) data.length data []
    [id / 16, id % 16 * 16 + flags, data.length] _ (by simp) hv (by simp) hmax]
  rw [List.nil_append]
  rw [bytesBits_cons, List.append_assoc]
  rw [asm_feed_tailbyte c q st k (id / 16) (id % 16 * 16 + flags) data.length data _
    (crcv / 256) _ rfl (by omega) (by omega) (by omega)]
  rw [bytesBits_cons, List.append_assoc]
  rw [asm_feed_tailbyte c q st k (id / 16) (id % 16 * 16 + flags) data.length
    (data ++ [crcv / 256]) _ (crcv % 256) _ rfl (by omega)
    (by simp only [List.length_append, List.length_cons, List.length_nil]; omega)
    (by simp only [List.length_append, List.length_cons, List.length_nil]; omega)]
  rw [show (bytesBits [eofByte] : List Bool) = bitsOfByte eofByte from by
    rw [bytesBits_cons, show bytesBits ([] : List Nat) = [] from rfl, List.append_nil]]
  rw [asm_feed_byte c q st k _ eofByte rest (by norm_num [eofByte])]
  have hbufL : ([id / 16, id % 16 * 16 + flags, data.length]
      ++ ((data ++ [crcv / 256]) ++ [crcv % 256])).length = 5 + data.length := by
    simp only [List.length_append, List.length_cons, List.length_nil]
    omega
  have hg2 : (([id / 16, id % 16 * 16 + flags, data.length]
      ++ ((data ++ [crcv / 256]) ++ [crcv % 256])) ++ [eofByte]).getD 2 0 = data.length := by
    rw [List.append_assoc]
    rfl
  rw [asmByteStep_finalize c q st k _ eofByte
    (by rw [hbufL]; omega)
    (by simp only [List.length_append, List.length_cons, List.length_nil]; omega)
    (by
      rw [hg2]
      simp only [List.length_append, List.length_cons, List.length_nil]
      omega)]
  rw [show ([id / 16, id % 16 * 16 + flags, data.length]
      ++ ((data ++ [crcv / 256]) ++ [crcv % 256])) ++ [eofByte]
    = [id / 16, id % 16 * 16 + flags, data.length]
      ++ (data ++ [crcv / 256, crcv % 256, eofByte]) from by
    simp [List.append_assoc]]

/-! ## De-stuffer correctness against the transmitter-side stuffer -/

theorem feed_stuffed (c : VanConfig) :
    ∀ (bs : List Bool) (l : Option Bool) (r : Nat) (fc : FrameCtx), r ≤ 1 →
    List.foldl (coreBitStep c) ⟨l, r, fc⟩ (stuffBits l r bs)
    = ⟨(stuffFinal l r bs).1, (stuffFinal l r bs).2,
        List.foldl (asmBitStep c) fc bs⟩ := by
  intro bs
  induction bs with
  | nil =>
      intro l r fc hr
      simp [stuffBits, stuffFinal]
  | cons b rest ih =>
      intro l r fc hr
      by_cases hl : l = some b
      · subst hl
        interval_cases r
        · have e1 : stuffBits (some b) 0 (b :: rest) = b :: stuffBits (some b) 1 rest := by
            simp [stuffBits, stuffRunLength]
          have e2 : stuffFinal (some b) 0 (b :: rest) = stuffFinal (some b) 1 rest := by
            simp [stuffFinal, stuffRunLength]
          have e3 : coreBitStep c ⟨some b, 0, fc⟩ b = ⟨some b, 1, asmBitStep c fc b⟩ := by
            simp [coreBitStep, stuffRunLength]
          rw [e1]
          simp only [List.foldl_cons]
          rw [e3, ih (some b) 1 (asmBitStep c fc b) (le_refl 1), e2]
        · have e1 : stuffBits (some b) 1 (b :: rest)
              = b :: (!b) :: stuffBits (some (!b)) 1 rest := by
            simp [stuffBits, stuffRunLength]
          have e2 : stuffFinal (some b) 1 (b :: rest) = stuffFinal (some (!b)) 1 rest := by
            simp [stuffFinal, stuffRunLength]
          have e3 : coreBitStep c ⟨some b, 1, fc⟩ b = ⟨some b, 2, asmBitStep c fc b⟩ := by
            simp [coreBitStep, stuffRunLength]
          have e4 : coreBitStep c ⟨some b, 2, asmBitStep c fc b⟩ (!b)
              = ⟨some (!b), 1, asmBitStep c fc b⟩ := by
            simp [coreBitStep, stuffRunLength]
          rw [e1]
          simp only [List.foldl_cons]
          rw [e3, e4, ih (some (!b)) 1 (asmBitStep c fc b) (le_refl 1), e2]
      · have hr2 : r ≠ stuffRunLength := by
          simp only [stuffRunLength]
          omega
        have e1 : stuffBits l r (b :: rest) = b :: stuffBits (some b) 1 rest := by
          simp [stuffBits, stuffRunLength, hl]
        have e2 : stuffFinal l r (b :: rest) = stuffFinal (some b) 1 rest := by
          simp [stuffFinal, stuffRunLength, hl]
        have e3 : coreBitStep c ⟨l, r, fc⟩ b = ⟨some b, 1, asmBitStep c fc b⟩ := by
          simp [coreBitStep, hr2, hl]
        rw [e1]
        simp only [List.foldl_cons]
        rw [e3, ih (some b) 1 (asmBitStep c fc b) (le_refl 1), e2]

/-! ## Edge-layer lemmas -/

theorem classify_nominal (c : VanConfig) (hb : c.nominalBitPeriod ≤ c.busIdleThreshold) :
    classifyInterval c c.nominalBitPeriod = .oneBit := by
  unfold classifyInterval
  rw [if_neg (by omega), if_pos ⟨by omega, by omega⟩]

theorem edgeStep_first (c : VanConfig) (s : RxState) (e : EdgeEvent)
    (hr : s.running = true) (hp : s.prevTime = none) :
    edgeStep c s e = ⟨true, some e.t, e.level, s.core⟩ := by
  unfold edgeStep
  rw [hp]
  simp [hr]

theorem edgeStep_gap (c : VanConfig) (s : RxState) (e : EdgeEvent) (t : Nat)
    (hr : s.running = true) (hp : s.prevTime = some t)
    (hgap : c.busIdleThreshold < e.t - t) :
    edgeStep c s e = ⟨true, some e.t, e.level,
      ⟨none, 0, ⟨.idle [], s.core.fc.queue, s.core.fc.stats, s.core.fc.seqCounter⟩⟩⟩ := by
  unfold edgeStep
  rw [hp]
  simp only [hr, Bool.true_eq_false, if_false]
  unfold classifyInterval
  rw [if_pos hgap]

theorem edgeStep_oneBit (c : VanConfig) (s : RxState) (e : EdgeEvent) (t : Nat)
    (hr : s.running = true) (hp : s.prevTime = some t)
    (he : e.t = t + c.nominalBitPeriod)
    (hb : c.nominalBitPeriod ≤ c.busIdleThreshold) :
    edgeStep c s e = ⟨true, some e.t, e.level, coreBitStep c s.core s.prevLevel⟩ := by
  unfold edgeStep
  rw [hp]
  simp only [hr, Bool.true_eq_false, if_false]
  have hi : e.t - t = c.nominalBitPeriod := by omega
  rw [hi, classify_nominal c hb]

theorem run_carry (c : VanConfig) :
    ∀ (future : List Bool) (s : RxState) (t : Nat),
    s.running = true → s.prevTime = some t → c.nominalBitPeriod ≤ c.busIdleThreshold →
    runEdges c s (carryEdges c.nominalBitPeriod t future)
    = ⟨true, some (t + c.nominalBitPeriod * future.length),
        future.getLastD s.prevLevel,
        List.foldl (coreBitStep c) s.core ((s.prevLevel :: future).dropLast)⟩ := by
  intro future
  induction future with
  | nil =>
      intro s t hr hp hb
      simp only [carryEdges, runEdges, List.foldl_nil, List.length_nil, Nat.mul_zero,
        Nat.add_zero, List.getLastD_nil, List.dropLast_single]
      cases s with
      | mk running prevTime prevLevel core =>
          simp only at hr hp
          rw [hr, hp]
  | cons f rest ih =>
      intro s t hr hp hb
      have estep : runEdges c s (carryEdges c.nominalBitPeriod t (f :: rest))
          = runEdges c (edgeStep c s ⟨t + c.nominalBitPeriod, f⟩)
              (carryEdges c.nominalBitPeriod (t + c.nominalBitPeriod) rest) := rfl
      rw [estep, edgeStep_oneBit c s ⟨t + c.nominalBitPeriod, f⟩ t hr hp rfl hb]
      rw [ih ⟨true, some (t + c.nominalBitPeriod), f, coreBitStep c s.core s.prevLevel⟩
        (t + c.nominalBitPeriod) rfl rfl hb]
      have harith : t + c.nominalBitPeriod + c.nominalBitPeriod * rest.length
          = t + c.nominalBitPeriod * (f :: rest).length := by
        simp only [List.length_cons]
        ring
      rw [harith]
      simp only [List.getLastD_cons]
      rw [show (s.prevLevel :: f :: rest).dropLast
        = s.prevLevel :: (f :: rest).dropLast from rfl]
      rw [List.foldl_cons]

/-! ## End-to-end decode lemmas -/

theorem wireOf_cons (id flags : Nat) (data : List Nat) (crcv : Nat) :
    wireOf id flags data crcv
    = false :: stuffBits (some false) 1
        ([false, false, false, true, true, true, false]
          ++ bytesBits (frameBytes id flags data crcv)) := rfl

theorem enqueue_fits (c : VanConfig) (fc : FrameCtx) (p : Packet)
    (h : fc.queue.length < c.queueCapacity) :
    enqueuePacket c fc p = { fc with queue := fc.queue ++ [p] } := by
  unfold enqueuePacket
  rw [if_pos h]

theorem enqueue_full (c : VanConfig) (fc : FrameCtx) (p : Packet)
    (h : ¬ fc.queue.length < c.queueCapacity) :
    enqueuePacket c fc p = { fc with stats := incQueueOverflow fc.stats } := by
  unfold enqueuePacket
  rw [if_neg h]

theorem decode_core (c : VanConfig) (q : List Packet) (st : Stats) (k : Nat)
    (id flags : Nat) (data : List Nat) (crcv : Nat)
    (hid : id < 4096) (hfl : flags < 16)
    (hv : ∀ x ∈ data, x < 256) (hdl : data.length < 256) (hcrc : crcv < 32768)
    (hmax : 6 + data.length ≤ c.maxPacketSize) :
    List.foldl (coreBitStep c) ⟨none, 0, ⟨.idle [], q, st, k⟩⟩ (wireOf id flags data crcv)
    = ⟨(stuffFinal none 0 (framePayloadBits id flags data crcv)).1,
       (stuffFinal none 0 (framePayloadBits id flags data crcv)).2,
       finalizeFrame c q st k
         ([id / 16, id % 16 * 16 + flags, data.length]
           ++ (data ++ [crcv / 256, crcv % 256, eofByte]))⟩ := by
  unfold wireOf
  rw [feed_stuffed c _ none 0 _ (by omega)]
  have h := frame_payload_run c q st k id flags data crcv [] hid hfl hv hdl hcrc hmax
  rw [List.append_nil] at h
  simp only [List.foldl_nil] at h
  rw [h]

theorem decode_core_fc (c : VanConfig) (q : List Packet) (st : Stats) (k : Nat)
    (id flags : Nat) (data : List Nat) (crcv : Nat)
    (hid : id < 4096) (hfl : flags < 16)
    (hv : ∀ x ∈ data, x < 256) (hdl : data.length < 256) (hcrc : crcv < 32768)
    (hmax : 6 + data.length ≤ c.maxPacketSize) :
    (List.foldl (coreBitStep c) ⟨none, 0, ⟨.idle [], q, st, k⟩⟩
        (wireOf id flags data crcv)).fc
    = if crcv = goodCrc id flags data then
        enqueuePacket c ⟨.idle [], q, incFramesCompleted st, k + 1⟩
          ⟨id, flags, data, crcv, true, k⟩
      else if c.surfaceInvalidPackets = true then
        enqueuePacket c ⟨.idle [], q, incCrcMismatch st, k + 1⟩
          ⟨id, flags, data, crcv, false, k⟩
      else ⟨.idle [], q, incCrcMismatch st, k⟩ := by
  rw [decode_core c q st k id flags data crcv hid hfl hv hdl hcrc hmax]
  show finalizeFrame c q st k
      ([id / 16, id % 16 * 16 + flags, data.length]
        ++ (data ++ [crcv / 256, crcv % 256, eofByte])) = _
  rw [finalize_shape c q st k (id / 16) (id % 16 * 16 + flags) data.length
    (crcv / 256) (crcv % 256) eofByte data rfl]
  rw [if_neg (fun h => h rfl)]
  have eid : id / 16 * 16 + (id % 16 * 16 + flags) / 16 = id := by omega
  have efl : (id % 16 * 16 + flags) % 16 = flags := by omega
  have ecrc : crcv / 256 * 256 + crcv % 256 = crcv := by omega
  rw [eid, efl, ecrc]
  rw [show ([id / 16, id % 16 * 16 + flags] : List Nat) ++ data
    = fieldBytes id flags data from rfl]
  rw [show crc15Bytes (fieldBytes id flags data) = goodCrc id flags data from rfl]
  by_cases hcv : crcv = goodCrc id flags data
  · rw [if_pos hcv.symm, if_pos hcv]
  · rw [if_neg (fun h => hcv h.symm), if_neg hcv]

theorem decode_from_ready (c : VanConfig) (q : List Packet) (st : Stats) (k : Nat)
    (t1 : Nat) (id flags : Nat) (data : List Nat) (crcv : Nat)
    (hid : id < 4096) (hfl : flags < 16)
    (hv : ∀ x ∈ data, x < 256) (hdl : data.length < 256) (hcrc : crcv < 32768)
    (hmax : 6 + data.length ≤ c.maxPacketSize)
    (hb : c.nominalBitPeriod ≤ c.busIdleThreshold) :
    (runEdges c ⟨true, some t1, false, ⟨none, 0, ⟨.idle [], q, st, k⟩⟩⟩
        (carryEdges c.nominalBitPeriod t1
          ((wireOf id flags data crcv).tail ++ [false]))).core.fc
    = if crcv = goodCrc id flags data then
        enqueuePacket c ⟨.idle [], q, incFramesCompleted st, k + 1⟩
          ⟨id, flags, data, crcv, true, k⟩
      else if c.surfaceInvalidPackets = true then
        enqueuePacket c ⟨.idle [], q, incCrcMismatch st, k + 1⟩
          ⟨id, flags, data, crcv, false, k⟩
      else ⟨.idle [], q, incCrcMismatch st, k⟩ := by
  rw [run_carry c _ _ t1 rfl rfl hb]
  have hw : wireOf id flags data crcv = false :: (wireOf id flags data crcv).tail := by
    rw [wireOf_cons]
    rfl
  have hdrop : ((false : Bool) :: ((wireOf id flags data crcv).tail ++ [false])).dropLast
      = wireOf id flags data crcv := by
    rw [show (false : Bool) :: ((wireOf id flags data crcv).tail ++ [false])
      = (false :: (wireOf id flags data crcv).tail) ++ [false] from rfl]
    rw [← hw, List.dropLast_concat]
  show (List.foldl (coreBitStep c) ⟨none, 0, ⟨.idle [], q, st, k⟩⟩
      ((false :: ((wireOf id flags data crcv).tail ++ [false])).dropLast)).fc = _
  rw [hdrop]
  exact decode_core_fc c q st k id flags data crcv hid hfl hv hdl hcrc hmax

/-! ## Claim theorems -/

/-- C8: in each version header, the `VAN_BUS_VERSION` string is exactly the
decimal digits of `VAN_BUS_VERSION_MAJOR`, `VAN_BUS_VERSION_MINOR` and
`VAN_BUS_VERSION_PATCH` joined by dots: release 0.3.2 and release 0.4.0. -/
theorem claim_C8_version_string :
    VAN_BUS_VERSION_v032
      = dottedVersion VAN_BUS_VERSION_MAJOR_v032 VAN_BUS_VERSION_MINOR_v032
          VAN_BUS_VERSION_PATCH_v032
    ∧ VAN_BUS_VERSION_v040
      = dottedVersion VAN_BUS_VERSION_MAJOR_v040 VAN_BUS_VERSION_MINOR_v040
          VAN_BUS_VERSION_PATCH_v040 := by
  exact ⟨rfl, rfl⟩

/-- C9 counterexample: `VAN_BUS_VERSION_INT`, written `000003002` and
`000004000`, starts with the digit 0, so as a C integer literal it is
octal; it equals neither 3002 nor 4000, refuting
MAJOR * 1000000 + MINOR * 1000 + PATCH for both headers. -/
theorem claim_C9_counterexample :
    ¬ (VAN_BUS_VERSION_INT_v032
        = VAN_BUS_VERSION_MAJOR_v032 * 1000000 + VAN_BUS_VERSION_MINOR_v032 * 1000
          + VAN_BUS_VERSION_PATCH_v032
      ∧ VAN_BUS_VERSION_INT_v040
        = VAN_BUS_VERSION_MAJOR_v040 * 1000000 + VAN_BUS_VERSION_MINOR_v040 * 1000
          + VAN_BUS_VERSION_PATCH_v040) := by
  decide

/-- C9 amended: under C integer-literal rules the leading zero makes
`VAN_BUS_VERSION_INT` an octal literal, so it equals the base-8 value of
its digit string — 1538 for release 0.3.2 and 2048 for release 0.4.0 —
and not MAJOR * 1000000 + MINOR * 1000 + PATCH. -/
theorem claim_C9_amended :
    VAN_BUS_VERSION_INT_v032 = digitsValue 8 [0, 0, 0, 0, 0, 3, 0, 0, 2]
    ∧ VAN_BUS_VERSION_INT_v032 = 1538
    ∧ VAN_BUS_VERSION_INT_v040 = digitsValue 8 [0, 0, 0, 0, 0, 4, 0, 0, 0]
    ∧ VAN_BUS_VERSION_INT_v040 = 2048 := by
  decide

/-- C10: `VAN_BUS_RX_VERSION` equals `VAN_BUS_VERSION_INT` in both
headers, and its evaluated value is strictly greater in release 0.4.0
than in release 0.3.2, so version comparisons order the releases
correctly. -/
theorem claim_C10_rx_version :
    VAN_BUS_RX_VERSION_v032 = VAN_BUS_VERSION_INT_v032
    ∧ VAN_BUS_RX_VERSION_v040 = VAN_BUS_VERSION_INT_v040
    ∧ VAN_BUS_RX_VERSION_v032 < VAN_BUS_RX_VERSION_v040 := by
  decide

/-- C1: for every well-formed synthetic frame (valid identifier, flags
and data, correct stuffing, markers and CRC) fed as edges at exactly
nominal-bit-period spacing to a freshly started receiver, the pipeline
produces exactly one Packet, with validity true and identifier, flags and
data equal to the encoded values. -/
theorem claim_C1_valid_frame_decodes (c : VanConfig) (t1 id flags : Nat)
    (data : List Nat)
    (hid : id < 4096) (hfl : flags < 16) (hv : ∀ x ∈ data, x < 256)
    (hdl : data.length < 256) (hmax : 6 + data.length ≤ c.maxPacketSize)
    (hcap : 0 < c.queueCapacity) (hb : c.nominalBitPeriod ≤ c.busIdleThreshold) :
    (runEdges c (startRx initialRx).1
        (encodeFrameEdges c t1 id flags data (goodCrc id flags data))).core.fc.queue
      = [⟨id, flags, data, goodCrc id flags data, true, 0⟩]
    ∧ (runEdges c (startRx initialRx).1
        (encodeFrameEdges c t1 id flags data (goodCrc id flags data))).core.fc.stats
      = incFramesCompleted zeroStats := by
  have hgc : goodCrc id flags data < 32768 := crc15Bytes_lt _
  have hfe : encodeFrameEdges c t1 id flags data (goodCrc id flags data)
      = ⟨t1, false⟩ :: carryEdges c.nominalBitPeriod t1
          ((wireOf id flags data (goodCrc id flags data)).tail ++ [false]) := by
    unfold encodeFrameEdges frameEdges
    rw [wireOf_cons]
    rfl
  rw [hfe]
  rw [show (startRx initialRx).1
    = ⟨true, none, false, ⟨none, 0, ⟨.idle [], [], zeroStats, 0⟩⟩⟩ from rfl]
  rw [show runEdges c ⟨true, none, false, ⟨none, 0, ⟨.idle [], [], zeroStats, 0⟩⟩⟩
      (⟨t1, false⟩ :: carryEdges c.nominalBitPeriod t1
        ((wireOf id flags data (goodCrc id flags data)).tail ++ [false]))
    = runEdges c
        (edgeStep c ⟨true, none, false, ⟨none, 0, ⟨.idle [], [], zeroStats, 0⟩⟩⟩
          ⟨t1, false⟩)
        (carryEdges c.nominalBitPeriod t1
          ((wireOf id flags data (goodCrc id flags data)).tail ++ [false])) from rfl]
  rw [edgeStep_first c _ _ rfl rfl]
  have hfc := decode_from_ready c [] zeroStats 0 t1 id flags data
    (goodCrc id flags data) hid hfl hv hdl hgc hmax hb
  rw [if_pos rfl] at hfc
  rw [enqueue_fits c _ _ (by simpa using hcap)] at hfc
  refine ⟨?_, ?_⟩
  · rw [hfc]
    rfl
  · rw [hfc]

/-- C1 witness: the spec's end-to-end scenario (identifier 0x1A2, flags
0, data bytes 0x01 0x02, correct CRC) at a concrete configuration. -/
theorem claim_C1_witness :
    (runEdges ⟨10, 1, 10, 1000, 4, false, 32⟩ (startRx initialRx).1
        (encodeFrameEdges ⟨10, 1, 10, 1000, 4, false, 32⟩ 5 418 0 [1, 2]
          (goodCrc 418 0 [1, 2]))).core.fc.queue
      = [⟨418, 0, [1, 2], goodCrc 418 0 [1, 2], true, 0⟩]
    ∧ (runEdges ⟨10, 1, 10, 1000, 4, false, 32⟩ (startRx initialRx).1
        (encodeFrameEdges ⟨10, 1, 10, 1000, 4, false, 32⟩ 5 418 0 [1, 2]
          (goodCrc 418 0 [1, 2]))).core.fc.stats
      = incFramesCompleted zeroStats :=
  claim_C1_valid_frame_decodes ⟨10, 1, 10, 1000, 4, false, 32⟩ 5 418 0 [1, 2]
    (by decide) (by decide) (by decide) (by decide) (by decide) (by decide) (by decide)

/-- C3: for every synthetic frame whose transmitted CRC mismatches the
CRC-15 of its fields, a freshly started receiver enqueues nothing and
counts one CrcMismatch when `surface_invalid_packets` is disabled (the
default), and enqueues exactly one packet with validity false and the
data fields still reconstructed when it is enabled. -/
theorem claim_C3_crc_mismatch (c : VanConfig) (t1 id flags : Nat)
    (data : List Nat) (crcv : Nat)
    (hid : id < 4096) (hfl : flags < 16) (hv : ∀ x ∈ data, x < 256)
    (hdl : data.length < 256) (hmax : 6 + data.length ≤ c.maxPacketSize)
    (hcap : 0 < c.queueCapacity) (hb : c.nominalBitPeriod ≤ c.busIdleThreshold)
    (hcrc : crcv < 32768) (hne : crcv ≠ goodCrc id flags data) :
    (c.surfaceInvalidPackets = false →
      (runEdges c (startRx initialRx).1
          (encodeFrameEdges c t1 id flags data crcv)).core.fc.queue = []
      ∧ (runEdges c (startRx initialRx).1
          (encodeFrameEdges c t1 id flags data crcv)).core.fc.stats
        = incCrcMismatch zeroStats)
    ∧ (c.surfaceInvalidPackets = true →
      (runEdges c (startRx initialRx).1
          (encodeFrameEdges c t1 id flags data crcv)).core.fc.queue
        = [⟨id, flags, data, crcv, false, 0⟩]
      ∧ (runEdges c (startRx initialRx).1
          (encodeFrameEdges c t1 id flags data crcv)).core.fc.stats
        = incCrcMismatch zeroStats) := by
  have hfe : encodeFrameEdges c t1 id flags data crcv
      = ⟨t1, false⟩ :: carryEdges c.nominalBitPeriod t1
          ((wireOf id flags data crcv).tail ++ [false]) := by
    unfold encodeFrameEdges frameEdges
    rw [wireOf_cons]
    rfl
  rw [hfe]
  rw [show (startRx initialRx).1
    = ⟨true, none, false, ⟨none, 0, ⟨.idle [], [], zeroStats, 0⟩⟩⟩ from rfl]
  rw [show runEdges c ⟨true, none, false, ⟨none, 0, ⟨.idle [], [], zeroStats, 0⟩⟩⟩
      (⟨t1, false⟩ :: carryEdges c.nominalBitPeriod t1
        ((wireOf id flags data crcv).tail ++ [false]))
    = runEdges c
        (edgeStep c ⟨true, none, false, ⟨none, 0, ⟨.idle [], [], zeroStats, 0⟩⟩⟩
          ⟨t1, false⟩)
        (carryEdges c.nominalBitPeriod t1
          ((wireOf id flags data crcv).tail ++ [false])) from rfl]
  rw [edgeStep_first c _ _ rfl rfl]
  have hfc := decode_from_ready c [] zeroStats 0 t1 id flags data crcv
    hid hfl hv hdl hcrc hmax hb
  rw [if_neg hne] at hfc
  constructor
  · intro hsurf
    rw [if_neg (by rw [hsurf]; exact Bool.false_ne_true)] at hfc
    exact ⟨by rw [hfc], by rw [hfc]⟩
  · intro hsurf
    rw [if_pos hsurf] at hfc
    rw [enqueue_fits c _ _ (by simpa using hcap)] at hfc
    refine ⟨?_, ?_⟩
    · rw [hfc]
      rfl
    · rw [hfc]

/-- C3 witness: the spec scenario frame with its CRC field flipped in one
bit, once with surfacing disabled and once with surfacing enabled. -/
theorem claim_C3_witness :
    ((runEdges ⟨10, 1, 10, 1000, 4, false, 32⟩ (startRx initialRx).1
        (encodeFrameEdges ⟨10, 1, 10, 1000, 4, false, 32⟩ 5 418 0 [1, 2]
          (goodCrc 418 0 [1, 2] ^^^ 1))).core.fc.queue = []
      ∧ (runEdges ⟨10, 1, 10, 1000, 4, false, 32⟩ (startRx initialRx).1
          (encodeFrameEdges ⟨10, 1, 10, 1000, 4, false, 32⟩ 5 418 0 [1, 2]
            (goodCrc 418 0 [1, 2] ^^^ 1))).core.fc.stats
        = incCrcMismatch zeroStats)
    ∧ ((runEdges ⟨10, 1, 10, 1000, 4, true, 32⟩ (startRx initialRx).1
        (encodeFrameEdges ⟨10, 1, 10, 1000, 4, true, 32⟩ 5 418 0 [1, 2]
          (goodCrc 418 0 [1, 2] ^^^ 1))).core.fc.queue
        = [⟨418, 0, [1, 2], goodCrc 418 0 [1, 2] ^^^ 1, false, 0⟩]
      ∧ (runEdges ⟨10, 1, 10, 1000, 4, true, 32⟩ (startRx initialRx).1
          (encodeFrameEdges ⟨10, 1, 10, 1000, 4, true, 32⟩ 5 418 0 [1, 2]
            (goodCrc 418 0 [1, 2] ^^^ 1))).core.fc.stats
        = incCrcMismatch zeroStats) :=
  ⟨(claim_C3_crc_mismatch ⟨10, 1, 10, 1000, 4, false, 32⟩ 5 418 0 [1, 2]
      (goodCrc 418 0 [1, 2] ^^^ 1) (by decide) (by decide) (by decide) (by decide)
      (by decide) (by decide) (by decide) (by decide) (by decide)).1 rfl,
   (claim_C3_crc_mismatch ⟨10, 1, 10, 1000, 4, true, 32⟩ 5 418 0 [1, 2]
      (goodCrc 418 0 [1, 2] ^^^ 1) (by decide) (by decide) (by decide) (by decide)
      (by decide) (by decide) (by decide) (by decide) (by decide)).2 rfl⟩

/-- C7: calling start() on a receiver that is already started leaves the
entire state unchanged and reports an already-running status rather than
a fault. -/
theorem claim_C7_start_noop (s : RxState) (h : s.running = true) :
    startRx s = (s, .alreadyRunning) := by
  unfold startRx
  rw [if_pos h]

/-- C7 witness: start() on a concrete running receiver, mid-frame. -/
theorem claim_C7_witness :
    startRx ⟨true, some 7, true, ⟨some true, 1, ⟨.inFrame [26] [true], [], zeroStats, 2⟩⟩⟩
      = (⟨true, some 7, true, ⟨some true, 1, ⟨.inFrame [26] [true], [], zeroStats, 2⟩⟩⟩,
        .alreadyRunning) :=
  claim_C7_start_noop _ rfl

/-- C6: after any sequence of prior inputs, stop() then start() resets
all statistics to zero, discards any in-flight frame (assembler back in
IDLE with an empty buffer, de-stuffer reset), and the restarted receiver
is exactly a freshly started receiver holding only the packets completed
before the restart — so no packet fragment from before the restart can
ever be surfaced afterwards: the post-restart behaviour on any further
input coincides with that fresh receiver's. -/
theorem claim_C6_restart_resets (c : VanConfig) (prior : List EdgeEvent) :
    (startRx (stopRx (runEdges c (startRx initialRx).1 prior))).1
      = freshWithQueue (runEdges c (startRx initialRx).1 prior).core.fc.queue
    ∧ (startRx (stopRx (runEdges c (startRx initialRx).1 prior))).1.core.fc.stats
      = zeroStats
    ∧ (startRx (stopRx (runEdges c (startRx initialRx).1 prior))).1.core.fc.asm
      = .idle []
    ∧ ∀ post : List EdgeEvent,
        runEdges c (startRx (stopRx (runEdges c (startRx initialRx).1 prior))).1 post
        = runEdges c
            (freshWithQueue (runEdges c (startRx initialRx).1 prior).core.fc.queue)
            post := by
  have h : (startRx (stopRx (runEdges c (startRx initialRx).1 prior))).1
      = freshWithQueue (runEdges c (startRx initialRx).1 prior).core.fc.queue := rfl
  exact ⟨h, by rw [h]; rfl, by rw [h]; rfl, fun post => by rw [h]⟩

/-- C2: for every sequence of enqueue/dequeue operations the queue size
never exceeds the capacity fixed in the configuration; an enqueue below
capacity appends the packet and changes no counter, and an enqueue onto a
full queue leaves the queue unchanged, drops the packet, and increments
the overflow counter exactly once. -/
theorem claim_C2_queue_bound (c : VanConfig) :
    (∀ (ops : List QueueOp) (fc : FrameCtx), fc.queue.length ≤ c.queueCapacity →
      (ops.foldl (queueOpStep c) fc).queue.length ≤ c.queueCapacity)
    ∧ (∀ (fc : FrameCtx) (p : Packet), fc.queue.length < c.queueCapacity →
      enqueuePacket c fc p = { fc with queue := fc.queue ++ [p] })
    ∧ (∀ (fc : FrameCtx) (p : Packet), c.queueCapacity ≤ fc.queue.length →
      enqueuePacket c fc p = { fc with stats := incQueueOverflow fc.stats }) := by
  refine ⟨?_, ?_, ?_⟩
  · intro ops
    induction ops with
    | nil => intro fc h; exact h
    | cons op rest ih =>
        intro fc h
        simp only [List.foldl_cons]
        apply ih
        cases op with
        | enq p =>
            by_cases hlt : fc.queue.length < c.queueCapacity
            · rw [show queueOpStep c fc (.enq p) = enqueuePacket c fc p from rfl,
                enqueue_fits c fc p hlt]
              simp only [List.length_append, List.length_cons, List.length_nil]
              omega
            · rw [show queueOpStep c fc (.enq p) = enqueuePacket c fc p from rfl,
                enqueue_full c fc p hlt]
              exact h
        | deq =>
            rw [show queueOpStep c fc .deq = { fc with queue := fc.queue.tail } from rfl]
            have htail : fc.queue.tail.length ≤ fc.queue.length := by
              cases fc.queue <;> simp
            exact le_trans htail h
  · intro fc p h
    exact enqueue_fits c fc p h
  · intro fc p h
    exact enqueue_full c fc p (by omega)

/-- C2 witness: three enqueues and a dequeue against capacity 2, one
enqueue below capacity, and one enqueue onto a full queue. -/
theorem claim_C2_witness :
    (([QueueOp.enq ⟨1, 2, [3], 4, true, 0⟩, QueueOp.enq ⟨1, 2, [3], 4, true, 0⟩,
        QueueOp.enq ⟨1, 2, [3], 4, true, 0⟩, QueueOp.deq].foldl
          (queueOpStep ⟨10, 1, 10, 1000, 2, false, 32⟩)
          ⟨.idle [], [], zeroStats, 0⟩).queue.length ≤ 2)
    ∧ enqueuePacket ⟨10, 1, 10, 1000, 2, false, 32⟩ ⟨.idle [], [], zeroStats, 0⟩
        ⟨1, 2, [3], 4, true, 0⟩
      = ⟨.idle [], [⟨1, 2, [3], 4, true, 0⟩], zeroStats, 0⟩
    ∧ enqueuePacket ⟨10, 1, 10, 1000, 2, false, 32⟩
        ⟨.idle [], [⟨1, 2, [3], 4, true, 0⟩, ⟨1, 2, [3], 4, true, 0⟩], zeroStats, 0⟩
        ⟨1, 2, [3], 4, true, 0⟩
      = ⟨.idle [], [⟨1, 2, [3], 4, true, 0⟩, ⟨1, 2, [3], 4, true, 0⟩],
          incQueueOverflow zeroStats, 0⟩ :=
  ⟨(claim_C2_queue_bound ⟨10, 1, 10, 1000, 2, false, 32⟩).1 _ _ (by decide),
   (claim_C2_queue_bound ⟨10, 1, 10, 1000, 2, false, 32⟩).2.1 _ _ (by decide),
   (claim_C2_queue_bound ⟨10, 1, 10, 1000, 2, false, 32⟩).2.2 _ _ (by decide)⟩

theorem frameBufLen_finalize (c : VanConfig) (q : List Packet) (st : Stats) (k : Nat)
    (buf : List Nat) : frameBufLen (finalizeFrame c q st k buf).asm = 0 := by
  simp only [finalizeFrame, enqueuePacket]
  split_ifs <;> rfl

theorem frameBufLen_byteStep (c : VanConfig) (q : List Packet) (st : Stats) (k : Nat)
    (buf : List Nat) (v : Nat) :
    frameBufLen (asmByteStep c q st k buf v).asm ≤ c.maxPacketSize := by
  unfold asmByteStep
  by_cases h1 : c.maxPacketSize < buf.length + 1
  · rw [if_pos h1]
    simp [frameBufLen]
  · rw [if_neg h1]
    by_cases h2 : (buf ++ [v]).length < 3
    · simp only [if_pos h2, frameBufLen]
      simp only [List.length_append, List.length_cons, List.length_nil]
      omega
    · rw [if_neg h2]
      by_cases h3 : (buf ++ [v]).length < 6 + (buf ++ [v]).getD 2 0
      · simp only [if_pos h3, frameBufLen]
        simp only [List.length_append, List.length_cons, List.length_nil]
        omega
      · rw [if_neg h3]
        rw [frameBufLen_finalize]
        omega

theorem frameBufLen_bitStep (c : VanConfig) (fc : FrameCtx) (b : Bool)
    (h : frameBufLen fc.asm ≤ c.maxPacketSize) :
    frameBufLen (asmBitStep c fc b).asm ≤ c.maxPacketSize := by
  obtain ⟨a, q, st, k⟩ := fc
  cases a with
  | idle w =>
      simp only [asmBitStep]
      split_ifs <;> simp [frameBufLen]
  | inFrame buf bb =>
      simp only [asmBitStep]
      split_ifs with h8
      · simpa [frameBufLen] using h
      · exact frameBufLen_byteStep c q st k buf (byteVal (bb ++ [b]))

theorem frameBufLen_coreStep (c : VanConfig) (cs : CoreState) (b : Bool)
    (h : frameBufLen cs.fc.asm ≤ c.maxPacketSize) :
    frameBufLen (coreBitStep c cs b).fc.asm ≤ c.maxPacketSize := by
  unfold coreBitStep
  split_ifs with h1 h2 h3
  · simp [frameBufLen]
  · exact h
  · exact frameBufLen_bitStep c cs.fc b h
  · exact frameBufLen_bitStep c cs.fc b h

theorem edgeStep_cases (c : VanConfig) (s : RxState) (e : EdgeEvent) (t : Nat)
    (hr : s.running = true) (hp : s.prevTime = some t) :
    edgeStep c s e
    = match classifyInterval c (e.t - t) with
      | .idleGap => ⟨true, some e.t, e.level,
          ⟨none, 0, ⟨.idle [], s.core.fc.queue, s.core.fc.stats,
            s.core.fc.seqCounter⟩⟩⟩
      | .oneBit => ⟨true, some e.t, e.level, coreBitStep c s.core s.prevLevel⟩
      | .twoBits => ⟨true, some e.t, e.level,
          coreBitStep c (coreBitStep c s.core s.prevLevel) s.prevLevel⟩
      | .violation => ⟨true, some e.t, e.level,
          ⟨none, 0, ⟨.idle [], s.core.fc.queue,
            incBitTimingViolation s.core.fc.stats, s.core.fc.seqCounter⟩⟩⟩ := by
  unfold edgeStep
  rw [hp]
  simp only [hr, Bool.true_eq_false, if_false]

theorem frameBufLen_edgeStep (c : VanConfig) (s : RxState) (e : EdgeEvent)
    (h : frameBufLen s.core.fc.asm ≤ c.maxPacketSize) :
    frameBufLen (edgeStep c s e).core.fc.asm ≤ c.maxPacketSize := by
  by_cases hr : s.running = false
  · rw [show edgeStep c s e = s from by unfold edgeStep; rw [if_pos hr]]
    exact h
  · have hr' : s.running = true := by
      revert hr
      cases s.running <;> simp
    cases hp : s.prevTime with
    | none =>
        rw [edgeStep_first c s e hr' hp]
        exact h
    | some t =>
        rw [edgeStep_cases c s e t hr' hp]
        cases hcl : classifyInterval c (e.t - t) with
        | idleGap => exact Nat.zero_le _
        | oneBit => exact frameBufLen_coreStep c s.core s.prevLevel h
        | twoBits =>
            exact frameBufLen_coreStep c _ s.prevLevel
              (frameBufLen_coreStep c s.core s.prevLevel h)
        | violation => exact Nat.zero_le _

theorem frameBufLen_run (c : VanConfig) :
    ∀ (es : List EdgeEvent) (s : RxState),
    frameBufLen s.core.fc.asm ≤ c.maxPacketSize →
    frameBufLen (runEdges c s es).core.fc.asm ≤ c.maxPacketSize := by
  intro es
  induction es with
  | nil => intro s h; exact h
  | cons e rest ih =>
      intro s h
      exact ih (edgeStep c s e) (frameBufLen_edgeStep c s e h)

/-- C5: on every input the Raw Frame Buffer never holds more than
`max_packet_size` bytes, and a byte that would grow the buffer past that
bound abandons the frame with a FrameTooLong error (a total-function
step, not a buffer overrun). -/
theorem claim_C5_buffer_bound (c : VanConfig) :
    (∀ es : List EdgeEvent,
      frameBufLen (runEdges c (startRx initialRx).1 es).core.fc.asm ≤ c.maxPacketSize)
    ∧ (∀ (q : List Packet) (st : Stats) (k : Nat) (buf : List Nat) (v : Nat),
      c.maxPacketSize < buf.length + 1 →
      asmByteStep c q st k buf v = ⟨.idle [], q, incFrameTooLong st, k⟩) := by
  constructor
  · intro es
    apply frameBufLen_run
    exact Nat.zero_le _
  · intro q st k buf v h
    exact asmByteStep_tooLong c q st k buf v h

/-- C5 witness: the bound after a concrete edge sequence, and the
FrameTooLong abandonment on a concrete over-long buffer at
max packet size 2. -/
theorem claim_C5_witness :
    frameBufLen (runEdges ⟨10, 1, 10, 1000, 4, false, 2⟩ (startRx initialRx).1
        [⟨5, false⟩, ⟨15, true⟩, ⟨25, true⟩]).core.fc.asm ≤ 2
    ∧ asmByteStep ⟨10, 1, 10, 1000, 4, false, 2⟩ [] zeroStats 0 [7, 8] 9
      = ⟨.idle [], [], incFrameTooLong zeroStats, 0⟩ :=
  ⟨(claim_C5_buffer_bound ⟨10, 1, 10, 1000, 4, false, 2⟩).1 _,
   (claim_C5_buffer_bound ⟨10, 1, 10, 1000, 4, false, 2⟩).2 [] zeroStats 0 [7, 8] 9
     (by decide)⟩

theorem classify_violation3x (c : VanConfig) (htol : tolAbs c < c.nominalBitPeriod)
    (hidle : 3 * c.nominalBitPeriod ≤ c.busIdleThreshold) :
    classifyInterval c (3 * c.nominalBitPeriod) = .violation := by
  unfold classifyInterval
  rw [if_neg (by omega)]
  rw [if_neg (by intro hcon; omega)]
  rw [if_neg (by intro hcon; omega)]

theorem edgeStep_violation (c : VanConfig) (s : RxState) (e : EdgeEvent) (t : Nat)
    (hr : s.running = true) (hp : s.prevTime = some t)
    (he : e.t = t + 3 * c.nominalBitPeriod)
    (htol : tolAbs c < c.nominalBitPeriod)
    (hidle : 3 * c.nominalBitPeriod ≤ c.busIdleThreshold) :
    edgeStep c s e = ⟨true, some e.t, e.level,
      ⟨none, 0, ⟨.idle [], s.core.fc.queue,
        incBitTimingViolation s.core.fc.stats, s.core.fc.seqCounter⟩⟩⟩ := by
  rw [edgeStep_cases c s e t hr hp]
  have hi : e.t - t = 3 * c.nominalBitPeriod := by omega
  rw [hi, classify_violation3x c htol hidle]

theorem coreBitStep_stuffViolation (c : VanConfig) (cs : CoreState) (b : Bool)
    (h2 : cs.dRun = stuffRunLength) (hl : cs.dLast = some b) :
    coreBitStep c cs b = ⟨some b, 1,
      ⟨.idle [], cs.fc.queue, incStuffingViolation cs.fc.stats,
        cs.fc.seqCounter⟩⟩ := by
  unfold coreBitStep
  rw [if_pos h2, if_pos hl]

theorem finalize_marker_mismatch (c : VanConfig) (q : List Packet) (st : Stats)
    (k : Nat) (b1 b2 lenB cHi cLo eB : Nat) (data : List Nat)
    (hl : data.length = lenB) (hne : eB ≠ eofByte) :
    finalizeFrame c q st k ([b1, b2, lenB] ++ (data ++ [cHi, cLo, eB]))
      = ⟨.idle [], q, incMarkerMismatch st, k⟩ := by
  rw [finalize_shape c q st k b1 b2 lenB cHi cLo eB data hl, if_pos hne]

theorem finalize_crc_mismatch_drop (c : VanConfig) (q : List Packet) (st : Stats)
    (k : Nat) (b1 b2 lenB cHi cLo : Nat) (data : List Nat)
    (hl : data.length = lenB)
    (hne : crc15Bytes ([b1, b2] ++ data) ≠ cHi * 256 + cLo)
    (hsurf : c.surfaceInvalidPackets = false) :
    finalizeFrame c q st k ([b1, b2, lenB] ++ (data ++ [cHi, cLo, eofByte]))
      = ⟨.idle [], q, incCrcMismatch st, k⟩ := by
  rw [finalize_shape c q st k b1 b2 lenB cHi cLo eofByte data hl]
  rw [if_neg (fun h => h rfl)]
  rw [if_neg hne]
  rw [if_neg (by rw [hsurf]; exact Bool.false_ne_true)]

theorem decode_after_gap (c : VanConfig) (s : RxState) (t t1 id flags : Nat)
    (data : List Nat)
    (hr : s.running = true) (hp : s.prevTime = some t)
    (hgap : c.busIdleThreshold < t1 - t)
    (hid : id < 4096) (hfl : flags < 16) (hv : ∀ x ∈ data, x < 256)
    (hdl : data.length < 256) (hmax : 6 + data.length ≤ c.maxPacketSize)
    (hq : s.core.fc.queue.length < c.queueCapacity)
    (hb : c.nominalBitPeriod ≤ c.busIdleThreshold) :
    (runEdges c s (encodeFrameEdges c t1 id flags data
        (goodCrc id flags data))).core.fc
      = ⟨.idle [],
          s.core.fc.queue
            ++ [⟨id, flags, data, goodCrc id flags data, true, s.core.fc.seqCounter⟩],
          incFramesCompleted s.core.fc.stats, s.core.fc.seqCounter + 1⟩ := by
  have hgc : goodCrc id flags data < 32768 := crc15Bytes_lt _
  have hfe : encodeFrameEdges c t1 id flags data (goodCrc id flags data)
      = ⟨t1, false⟩ :: carryEdges c.nominalBitPeriod t1
          ((wireOf id flags data (goodCrc id flags data)).tail ++ [false]) := by
    unfold encodeFrameEdges frameEdges
    rw [wireOf_cons]
    rfl
  rw [hfe]
  rw [show runEdges c s (⟨t1, false⟩ :: carryEdges c.nominalBitPeriod t1
      ((wireOf id flags data (goodCrc id flags data)).tail ++ [false]))
    = runEdges c (edgeStep c s ⟨t1, false⟩)
        (carryEdges c.nominalBitPeriod t1
          ((wireOf id flags data (goodCrc id flags data)).tail ++ [false])) from rfl]
  rw [edgeStep_gap c s ⟨t1, false⟩ t hr hp hgap]
  have hfc := decode_from_ready c s.core.fc.queue s.core.fc.stats
    s.core.fc.seqCounter t1 id flags data (goodCrc id flags data)
    hid hfl hv hdl hgc hmax hb
  rw [if_pos rfl] at hfc
  rw [enqueue_fits c _ _ (by simpa using hq)] at hfc
  rw [hfc]

/-- C4: every per-frame error — BitTimingViolation, StuffingViolation,
FrameTooLong, MarkerMismatch, CrcMismatch — abandons the current frame,
returns the state machine to IDLE, increments exactly the corresponding
statistic (every step is a total function, so no exception or panic can
reach the caller), and after a bus-idle gap the receiver decodes the next
well-formed frame from any state. -/
theorem claim_C4_error_recovery (c : VanConfig) :
    (∀ (s : RxState) (t : Nat) (e : EdgeEvent),
      s.running = true → s.prevTime = some t →
      e.t = t + 3 * c.nominalBitPeriod →
      tolAbs c < c.nominalBitPeriod → 3 * c.nominalBitPeriod ≤ c.busIdleThreshold →
      edgeStep c s e = ⟨true, some e.t, e.level,
        ⟨none, 0, ⟨.idle [], s.core.fc.queue,
          incBitTimingViolation s.core.fc.stats, s.core.fc.seqCounter⟩⟩⟩)
    ∧ (∀ (cs : CoreState) (b : Bool),
      cs.dRun = stuffRunLength → cs.dLast = some b →
      coreBitStep c cs b = ⟨some b, 1,
        ⟨.idle [], cs.fc.queue, incStuffingViolation cs.fc.stats,
          cs.fc.seqCounter⟩⟩)
    ∧ (∀ (q : List Packet) (st : Stats) (k : Nat) (buf : List Nat) (v : Nat),
      c.maxPacketSize < buf.length + 1 →
      asmByteStep c q st k buf v = ⟨.idle [], q, incFrameTooLong st, k⟩)
    ∧ (∀ (q : List Packet) (st : Stats) (k : Nat)
        (b1 b2 lenB cHi cLo eB : Nat) (data : List Nat),
      data.length = lenB → eB ≠ eofByte →
      finalizeFrame c q st k ([b1, b2, lenB] ++ (data ++ [cHi, cLo, eB]))
        = ⟨.idle [], q, incMarkerMismatch st, k⟩)
    ∧ (∀ (q : List Packet) (st : Stats) (k : Nat)
        (b1 b2 lenB cHi cLo : Nat) (data : List Nat),
      data.length = lenB → crc15Bytes ([b1, b2] ++ data) ≠ cHi * 256 + cLo →
      c.surfaceInvalidPackets = false →
      finalizeFrame c q st k ([b1, b2, lenB] ++ (data ++ [cHi, cLo, eofByte]))
        = ⟨.idle [], q, incCrcMismatch st, k⟩)
    ∧ (∀ (s : RxState) (t t1 id flags : Nat) (data : List Nat),
      s.running = true → s.prevTime = some t → c.busIdleThreshold < t1 - t →
      id < 4096 → flags < 16 → (∀ x ∈ data, x < 256) → data.length < 256 →
      6 + data.length ≤ c.maxPacketSize →
      s.core.fc.queue.length < c.queueCapacity →
      c.nominalBitPeriod ≤ c.busIdleThreshold →
      (runEdges c s (encodeFrameEdges c t1 id flags data
          (goodCrc id flags data))).core.fc
        = ⟨.idle [],
            s.core.fc.queue ++
              [⟨id, flags, data, goodCrc id flags data, true, s.core.fc.seqCounter⟩],
            incFramesCompleted s.core.fc.stats, s.core.fc.seqCounter + 1⟩) :=
  ⟨fun s t e h1 h2 h3 h4 h5 => edgeStep_violation c s e t h1 h2 h3 h4 h5,
   fun cs b h1 h2 => coreBitStep_stuffViolation c cs b h1 h2,
   fun q st k buf v h => asmByteStep_tooLong c q st k buf v h,
   fun q st k b1 b2 lenB cHi cLo eB data h1 h2 =>
     finalize_marker_mismatch c q st k b1 b2 lenB cHi cLo eB data h1 h2,
   fun q st k b1 b2 lenB cHi cLo data h1 h2 h3 =>
     finalize_crc_mismatch_drop c q st k b1 b2 lenB cHi cLo data h1 h2 h3,
   fun s t t1 id flags data h1 h2 h3 h4 h5 h6 h7 h8 h9 h10 =>
     decode_after_gap c s t t1 id flags data h1 h2 h3 h4 h5 h6 h7 h8 h9 h10⟩

/-- C4 witness: a 3-times-nominal interval mid-frame aborts with one
BitTimingViolation; a run of three identical wire bits aborts with one
StuffingViolation; an over-long buffer aborts with one FrameTooLong; a
wrong end marker aborts with one MarkerMismatch; a wrong CRC aborts with
one CrcMismatch; and after the timing violation the receiver decodes the
next well-formed frame following a bus-idle gap. -/
theorem claim_C4_witness :
    edgeStep ⟨10, 1, 10, 1000, 4, false, 32⟩
        ⟨true, some 100, true, ⟨some true, 1, ⟨.inFrame [26, 32] [], [], zeroStats, 0⟩⟩⟩
        ⟨130, false⟩
      = ⟨true, some 130, false,
          ⟨none, 0, ⟨.idle [], [], incBitTimingViolation zeroStats, 0⟩⟩⟩
    ∧ coreBitStep ⟨10, 1, 10, 1000, 4, false, 32⟩
        ⟨some true, 2, ⟨.inFrame [5] [], [], zeroStats, 1⟩⟩ true
      = ⟨some true, 1, ⟨.idle [], [], incStuffingViolation zeroStats, 1⟩⟩
    ∧ asmByteStep ⟨10, 1, 10, 1000, 4, false, 2⟩ [] zeroStats 0 [7, 8] 9
      = ⟨.idle [], [], incFrameTooLong zeroStats, 0⟩
    ∧ finalizeFrame ⟨10, 1, 10, 1000, 4, false, 32⟩ [] zeroStats 0
        ([1, 2, 2] ++ ([1, 2] ++ [3, 4, 0]))
      = ⟨.idle [], [], incMarkerMismatch zeroStats, 0⟩
    ∧ finalizeFrame ⟨10, 1, 10, 1000, 4, false, 32⟩ [] zeroStats 0
        ([1, 2, 2] ++ ([1, 2] ++ [3, 4, eofByte]))
      = ⟨.idle [], [], incCrcMismatch zeroStats, 0⟩
    ∧ (runEdges ⟨10, 1, 10, 1000, 4, false, 32⟩
        ⟨true, some 130, false, ⟨none, 0, ⟨.idle [], [], incBitTimingViolation zeroStats, 0⟩⟩⟩
        (encodeFrameEdges ⟨10, 1, 10, 1000, 4, false, 32⟩ 2000 418 0 [1, 2]
          (goodCrc 418 0 [1, 2]))).core.fc
      = ⟨.idle [], [⟨418, 0, [1, 2], goodCrc 418 0 [1, 2], true, 0⟩],
          incFramesCompleted (incBitTimingViolation zeroStats), 1⟩ :=
  ⟨(claim_C4_error_recovery ⟨10, 1, 10, 1000, 4, false, 32⟩).1 _ 100 _
      rfl rfl (by decide) (by decide) (by decide),
   (claim_C4_error_recovery ⟨10, 1, 10, 1000, 4, false, 32⟩).2.1 _ true rfl rfl,
   (claim_C4_error_recovery ⟨10, 1, 10, 1000, 4, false, 2⟩).2.2.1 [] zeroStats 0
      [7, 8] 9 (by decide),
   (claim_C4_error_recovery ⟨10, 1, 10, 1000, 4, false, 32⟩).2.2.2.1 [] zeroStats 0
      1 2 2 3 4 0 [1, 2] rfl (by decide),
   (claim_C4_error_recovery ⟨10, 1, 10, 1000, 4, false, 32⟩).2.2.2.2.1 [] zeroStats 0
      1 2 2 3 4 [1, 2] rfl (by decide) rfl,
   (claim_C4_error_recovery ⟨10, 1, 10, 1000, 4, false, 32⟩).2.2.2.2.2 _ 130 2000
      418 0 [1, 2] rfl rfl (by decide) (by decide) (by decide) (by decide)
      (by decide) (by decide) (by decide) (by decide)⟩
